import Mathlib

/- Shallow embedding of the PostHog "population +1" team-map data pipeline:
   the location extractor (dedup + problematic classification), the location
   normalizer, the geocoding search-query builder, the reverse-geocoding
   verification pass, the record merger that produces the served dataset, and
   the member-by-id lookup route.  Coordinates are left abstract in a type
   parameter `α` since the pipeline only ever copies them verbatim; witnesses
   instantiate `α := Int`. -/

namespace PosthogTeam

/-! ### JavaScript string primitives -/

/-- Whitespace characters recognised by `String.prototype.trim` and the regex
class `\s` (restricted to the ASCII range used by the data). -/
def jsWsChar (c : Char) : Bool :=
  c = ' ' || c = '\t' || c = '\n' || c = '\r' || c = '\x0b' || c = '\x0c'

/-- Boolean substring occurrence over character lists, mirroring
`String.prototype.includes` (the empty pattern occurs in every string). -/
def charsInfix (pat : List Char) : List Char → Bool
  | [] => pat.isEmpty
  | c :: rest => pat.isPrefixOf (c :: rest) || charsInfix pat rest

/-- `s.includes(pat)` of JavaScript. -/
def jsIncludes (s pat : String) : Bool :=
  charsInfix pat.data s.data

/-- Characters of `String.prototype.trim`: drop whitespace from both ends. -/
def trimChars (l : List Char) : List Char :=
  List.rdropWhile jsWsChar (l.dropWhile jsWsChar)

/-- `s.trim()` of JavaScript. -/
def jsTrim (s : String) : String :=
  ⟨trimChars s.data⟩

/-- `s.toLowerCase()` of JavaScript, as a per-character map over the data
list (kernel-reducible, unlike the position-based library implementation). -/
def jsToLower (s : String) : String :=
  ⟨s.data.map Char.toLower⟩

/-- Remove the first occurrence of `pat`, as in `s.replace(pat, '')` with a
string pattern (JavaScript replaces only the first occurrence). -/
def removeFirstOcc (pat : List Char) : List Char → List Char
  | [] => []
  | c :: rest =>
    if pat.isPrefixOf (c :: rest) then (c :: rest).drop pat.length
    else c :: removeFirstOcc pat rest

/-- `s.replace(pat, '')` for a literal string pattern. -/
def removeFirstStr (s pat : String) : String :=
  ⟨removeFirstOcc pat.data s.data⟩

def greaterChars : List Char := ['g', 'r', 'e', 'a', 't', 'e', 'r']

/-- Whether a character list starts with a whitespace character. -/
def headWs : List Char → Bool
  | d :: _ => jsWsChar d
  | [] => false

/-- `s.replace(/Greater\s+/i, '')`: delete the leftmost case-insensitive
"greater" followed by a (maximal) run of whitespace. -/
def replaceGreaterWs : List Char → List Char
  | [] => []
  | c :: rest =>
    if ((c :: rest).take 7).map Char.toLower = greaterChars ∧ headWs ((c :: rest).drop 7)
    then ((c :: rest).drop 7).dropWhile jsWsChar
    else c :: replaceGreaterWs rest

def areaChars : List Char := ['a', 'r', 'e', 'a']

/-- `s.replace(/\s+Area/i, '')`: delete the leftmost (maximal) whitespace run
followed by a case-insensitive "area". -/
def replaceWsArea : List Char → List Char
  | [] => []
  | c :: rest =>
    if jsWsChar c ∧ (((c :: rest).dropWhile jsWsChar).take 4).map Char.toLower = areaChars
    then ((c :: rest).dropWhile jsWsChar).drop 4
    else c :: replaceWsArea rest

/-- `s.split(',')[0]`: the text before the first comma. -/
def takeBeforeComma (s : String) : String :=
  ⟨s.data.takeWhile (fun c => c ≠ ',')⟩

/-- Template-literal rendering of a nullable string: `null` prints as "null". -/
def jsOStr : Option String → String
  | none => "null"
  | some s => s

/-- JavaScript truthiness of a nullable string: only `null` and the empty
string are falsy. -/
def jsTruthy : Option String → Bool
  | none => false
  | some s => !(s = "")

/-- Truthy-or-null on a nullable string, as in `x || null`. -/
def jsStrOrNull (o : Option String) : Option String :=
  match o with
  | some u => if u = "" then none else some u
  | none => none

def decDigitVal (c : Char) : Option Nat :=
  if '0' ≤ c ∧ c ≤ '9' then some (c.toNat - '0'.toNat) else none

def hexDigitVal (c : Char) : Option Nat :=
  if '0' ≤ c ∧ c ≤ '9' then some (c.toNat - '0'.toNat)
  else if 'a' ≤ c ∧ c ≤ 'f' then some (c.toNat - 'a'.toNat + 10)
  else if 'A' ≤ c ∧ c ≤ 'F' then some (c.toNat - 'A'.toNat + 10)
  else none

/-- Read a maximal run of digits; `none` mirrors parseInt's NaN when no digit
is present. -/
def parseDigits (dv : Char → Option Nat) (base : Nat) (l : List Char) : Option Nat :=
  let ds := l.takeWhile (fun c => (dv c).isSome)
  if ds.isEmpty then none
  else some (ds.foldl (fun acc c => acc * base + (dv c).getD 0) 0)

/-- `parseInt(s)` of JavaScript without an explicit radix: optional leading
whitespace and sign, auto-detected `0x` hex prefix, otherwise decimal; `none`
stands for NaN. -/
def jsParseInt (s : String) : Option Int :=
  let l := s.data.dropWhile jsWsChar
  let sgn : Int := match l with
    | '-' :: _ => -1
    | _ => 1
  let l' := match l with
    | '-' :: t => t
    | '+' :: t => t
    | _ => l
  match l' with
  | '0' :: c :: t =>
    if c = 'x' ∨ c = 'X' then (parseDigits hexDigitVal 16 t).map (fun n => sgn * n)
    else (parseDigits decDigitVal 10 l').map (fun n => sgn * n)
  | _ => (parseDigits decDigitVal 10 l').map (fun n => sgn * n)

/-! ### Association-list model of a JavaScript `Map` with string keys -/

/-- `map.get(k)` (`none` when absent). -/
def mapGet {β : Type} : List (String × β) → String → Option β
  | [], _ => none
  | (k', v) :: rest, k => if k' = k then some v else mapGet rest k

/-- `map.set(k, v)`: replace the value at an existing key in place, else
append the new binding (JavaScript `Map`s preserve insertion order). -/
def mapSet {β : Type} : List (String × β) → String → β → List (String × β)
  | [], k, v => [(k, v)]
  | (k', v') :: rest, k, v =>
    if k' = k then (k, v) :: rest else (k', v') :: mapSet rest k v

/-! ### Data model -/

structure AvatarRef where
  url : Option String
deriving DecidableEq

structure TeamAttrs where
  name : Option String
  slug : Option String
deriving DecidableEq

structure RawTeam where
  id : Int
  attributes : Option TeamAttrs
deriving DecidableEq

structure TeamsData where
  data : Option (List RawTeam)
deriving DecidableEq

/-- One scraped person, as read from `teamJSON.txt`. -/
structure RawTeamRecord where
  squeakId : Int
  firstName : String
  lastName : String
  companyRole : Option String
  location : Option String
  country : Option String
  avatar : Option AvatarRef
  biography : Option String
  color : Option String
  pronouns : Option String
  pineappleOnPizza : Option Bool
  startDate : Option String
  teams : Option TeamsData
  leadTeams : Option TeamsData
deriving DecidableEq

/-- Forward geocode payload stored in a successful result
(`geocoded: { lat, lng, formattedAddress, city, country, countryCode }`). -/
structure GeocodedInfo (α : Type) where
  lat : α
  lng : α
  formattedAddress : Option String
  city : Option String
  country : Option String
  countryCode : Option String
deriving DecidableEq

/-- One element of the persisted `allResults` array of the geocoding stage. -/
structure GeoEntry (α : Type) where
  location : Option String
  country : Option String
  count : Nat
  members : List String
  success : Bool
  geocoded : Option (GeocodedInfo α)
  error : Option String
deriving DecidableEq

structure TeamSummary where
  id : Int
  name : Option String
  slug : Option String
deriving DecidableEq

structure LeadTeamSummary where
  name : Option String
deriving DecidableEq

/-- Final output entity served to the map UI. -/
structure EnrichedMember (α : Type) where
  id : Int
  name : String
  firstName : String
  lastName : String
  role : Option String
  location : Option String
  country : Option String
  latitude : α
  longitude : α
  formattedAddress : Option String
  avatar : Option String
  biography : Option String
  color : Option String
  pronouns : Option String
  pineappleOnPizza : Option Bool
  startDate : Option String
  teams : List TeamSummary
  leadTeams : List LeadTeamSummary
deriving DecidableEq

/-- `${member.firstName} ${member.lastName}`. -/
def memberName (m : RawTeamRecord) : String :=
  m.firstName ++ " " ++ m.lastName

/-- The join key `${location}|${country}` built from a (location, country)
pair by template literal. -/
def keyOfPair (location country : Option String) : String :=
  jsOStr location ++ "|" ++ jsOStr country

/-- LocationKey of a raw record. -/
def memberKey (m : RawTeamRecord) : String :=
  keyOfPair m.location m.country

/-- LocationKey recomputed by the merger from a geocode-result entry. -/
def entryKey {α : Type} (e : GeoEntry α) : String :=
  keyOfPair e.location e.country

/-! ### Location extractor (`geocodeTeamData`, step 1 and 2) -/

/-- Value stored in the deduplicated location map. -/
structure LocEntry where
  location : Option String
  country : Option String
  count : Nat
  members : List String
deriving DecidableEq

/-- One iteration of the `teamMembers.forEach` that builds `locationMap`:
insert a fresh entry when the key is new, then bump its count and member
list. -/
def addMember (acc : List (String × LocEntry)) (m : RawTeamRecord) : List (String × LocEntry) :=
  let key := memberKey m
  let acc1 := match mapGet acc key with
    | some _ => acc
    | none => mapSet acc key ⟨m.location, m.country, 0, []⟩
  match mapGet acc1 key with
  | some d => mapSet acc1 key ⟨d.location, d.country, d.count + 1, d.members ++ [memberName m]⟩
  | none => acc1

/-- The deduplicated location set (`locationMap`), in insertion order. -/
def buildLocationSet (members : List RawTeamRecord) : List (String × LocEntry) :=
  members.foldl addMember []

/-- Fixed denylist of non-geographic placeholder keywords. -/
def problematicKeywords : List String :=
  ["world", "earth", "remote", "nomad", "digital nomad", "everywhere",
   "nowhere", "n/a", "tbd", "various"]

/-- `isPotentiallyProblematic(location)`: empty/null locations and the literal
"null" are problematic, else any case-insensitive denylist hit. -/
def isPotentiallyProblematic (location : Option String) : Bool :=
  match location with
  | none => true
  | some l =>
    if l = "" ∨ l = "null" then true
    else problematicKeywords.any (fun k => jsIncludes (jsToLower l) k)

/-- Problematic entries of the location set, in order. -/
def probLocations (s : List (String × LocEntry)) : List (String × LocEntry) :=
  s.filter (fun p => isPotentiallyProblematic p.2.location)

/-- Non-problematic entries of the location set, in order. -/
def normalLocations (s : List (String × LocEntry)) : List (String × LocEntry) :=
  s.filter (fun p => !isPotentiallyProblematic p.2.location)

/-- `allLocations = [...problematic, ...normal]`: the list iterated by the
geocoding loop, one forward-geocode request per element. -/
def allLocations (s : List (String × LocEntry)) : List (String × LocEntry) :=
  probLocations s ++ normalLocations s

/-! ### Location normalizer (`normalizeLocation`) -/

/-- The fixed country-code → country-name table. -/
def countryNames : String → Option String
  | "PL" => some "Poland"
  | "GB" => some "United Kingdom"
  | "US" => some "United States"
  | "CA" => some "Canada"
  | "DE" => some "Germany"
  | "FR" => some "France"
  | "ES" => some "Spain"
  | "IT" => some "Italy"
  | "NL" => some "Netherlands"
  | "BE" => some "Belgium"
  | _ => none

/-- Fourth normalization rule: when a country code is supplied, the string
has a comma, and the code's full country name occurs (case-insensitively) in
the string, truncate to the text before the first comma. -/
def ruleFour (s : String) (country : Option String) : String :=
  if jsTruthy country ∧ jsIncludes s "," then
    match countryNames (country.getD "") with
    | some cname =>
      if jsIncludes (jsToLower s) (jsToLower cname) then jsTrim (takeBeforeComma s) else s
    | none => s
  else s

/-- `normalizeLocation(location, country)`. -/
def normalizeLocation (location country : Option String) : String :=
  match location with
  | none => "North Pole"
  | some l =>
    if l = "" ∨ l = "null" ∨ jsToLower l = "world" then "North Pole"
    else
      let n1 := jsTrim l
      let n2 := if country = some "GB" ∧ jsIncludes n1 ", UK" then removeFirstStr n1 ", UK" else n1
      let n3 := if jsIncludes n2 "Greater" ∧ jsIncludes n2 "Area"
                then ⟨replaceWsArea (replaceGreaterWs n2.data)⟩
                else n2
      ruleFour n3 country

/-- The forward-geocoder query string: normalized location, with the country
code appended after a comma when present and not the "world" sentinel. -/
def searchQuery (location country : Option String) : String :=
  let n := normalizeLocation location country
  if jsTruthy country ∧ ¬country = some "world" then n ++ ", " ++ country.getD "" else n

/-! ### Reverse-geocoding verification pass (`geocodeTeamData`, step 4) -/

/-- One element of a reverse-geocode result list.  The code reads
`formattedAddress` unguarded and `city` through optional chaining. -/
structure RevResult where
  formattedAddress : String
  city : Option String
deriving DecidableEq

/-- A recorded verification mismatch.  `coordinates` keeps the (lat, lng)
pair that the script renders as a string. -/
structure Mismatch (α : Type) where
  original : String
  originalCountry : Option String
  coordinates : α × α
  reverseGeocodedTo : String
  membersAffected : Nat
deriving DecidableEq

/-- The containment check: reverse formatted address contains the original
location, or the original contains the reverse city (empty when absent),
everything lowercased. -/
def jsMatchCheck (r : RevResult) (orig : String) : Bool :=
  jsIncludes (jsToLower r.formattedAddress) (jsToLower orig)
  || jsIncludes (jsToLower orig) ((r.city.map jsToLower).getD "")

/-- One iteration of the verification loop.  `reverse` abstracts the
reverse-geocode request, `none` standing for a thrown request error; any
failure inside the `try` block (including a null original location) is
swallowed and produces no mismatch. -/
def checkEntry {α : Type} (reverse : α → α → Option (List RevResult)) (loc : GeoEntry α) :
    Option (Mismatch α) :=
  match loc.geocoded with
  | none => none
  | some g =>
    match reverse g.lat g.lng with
    | none => none
    | some [] => none
    | some (r :: _) =>
      match loc.location with
      | none => none
      | some orig =>
        if jsMatchCheck r orig then none
        else some ⟨orig, loc.country, (g.lat, g.lng), r.formattedAddress, loc.count⟩

/-- The verification loop over a list of entries, collecting mismatches in
order; a skipped entry never stops the loop. -/
def verifyLoop {α : Type} (reverse : α → α → Option (List RevResult)) :
    List (GeoEntry α) → List (Mismatch α)
  | [] => []
  | loc :: rest =>
    match checkEntry reverse loc with
    | some mm => mm :: verifyLoop reverse rest
    | none => verifyLoop reverse rest

/-- `verificationsNeeded`: the first 10 successful geocode results. -/
def verificationsNeeded {α : Type} (results : List (GeoEntry α)) : List (GeoEntry α) :=
  (results.filter (fun r => r.success)).take 10

/-- The whole verification pass. -/
def verifyPass {α : Type} (reverse : α → α → Option (List RevResult))
    (results : List (GeoEntry α)) : List (Mismatch α) :=
  verifyLoop reverse (verificationsNeeded results)

/-! ### Record merger (`processTeamData`) -/

/-- Value stored in the merger's coordinate lookup map. -/
structure LocCoords (α : Type) where
  latitude : α
  longitude : α
  formattedAddress : Option String
deriving DecidableEq

/-- One iteration of the `allResults.forEach` building the merger's
location lookup: only successful entries carrying a geocoded payload are
inserted. -/
def mergeStep {α : Type} (acc : List (String × LocCoords α)) (r : GeoEntry α) :
    List (String × LocCoords α) :=
  if r.success then
    match r.geocoded with
    | some g => mapSet acc (entryKey r) ⟨g.lat, g.lng, g.formattedAddress⟩
    | none => acc
  else acc

/-- The merger's key → coordinates lookup map. -/
def buildLocationMap {α : Type} (results : List (GeoEntry α)) : List (String × LocCoords α) :=
  results.foldl mergeStep []

/-- Predicate selecting a usable geocode entry for key `k`: matching key,
successful, and carrying a geocoded payload. -/
def entryHit {α : Type} (k : String) (e : GeoEntry α) : Bool :=
  decide (entryKey e = k) && e.success && e.geocoded.isSome

/-- Specification-level lookup: the first successful entry with the given
key, its coordinates extracted verbatim. -/
def successFor {α : Type} (results : List (GeoEntry α)) (k : String) : Option (LocCoords α) :=
  match results.find? (entryHit k) with
  | some e =>
    match e.geocoded with
    | some g => some ⟨g.lat, g.lng, g.formattedAddress⟩
    | none => none
  | none => none

def teamSummaries (o : Option TeamsData) : List TeamSummary :=
  match o with
  | some td =>
    match td.data with
    | some l => l.map (fun t => ⟨t.id, t.attributes.bind TeamAttrs.name, t.attributes.bind TeamAttrs.slug⟩)
    | none => []
  | none => []

def leadTeamSummaries (o : Option TeamsData) : List LeadTeamSummary :=
  match o with
  | some td =>
    match td.data with
    | some l => l.map (fun t => ⟨t.attributes.bind TeamAttrs.name⟩)
    | none => []
  | none => []

/-- Shape one raw record into an EnrichedMember using looked-up coordinates:
a field-for-field copy of the object literal in `processTeamData`. -/
def enrichMember {α : Type} (m : RawTeamRecord) (c : LocCoords α) : EnrichedMember α :=
  { id := m.squeakId
    name := memberName m
    firstName := m.firstName
    lastName := m.lastName
    role := m.companyRole
    location := m.location
    country := m.country
    latitude := c.latitude
    longitude := c.longitude
    formattedAddress := c.formattedAddress
    avatar := jsStrOrNull (m.avatar.bind AvatarRef.url)
    biography := m.biography
    color := m.color
    pronouns := m.pronouns
    pineappleOnPizza := m.pineappleOnPizza
    startDate := m.startDate
    teams := teamSummaries m.teams
    leadTeams := leadTeamSummaries m.leadTeams }

/-- Warning record emitted for a skipped member (`console.warn` carries the
member's name and raw location/country). -/
structure SkipWarning where
  name : String
  location : Option String
  country : Option String
deriving DecidableEq

def warnFor (m : RawTeamRecord) : SkipWarning :=
  ⟨memberName m, m.location, m.country⟩

/-- The member loop of the merger: emit an enriched member when the key
resolves, otherwise a warning, preserving order. -/
def mergeMembers {α : Type} (locMap : List (String × LocCoords α)) :
    List RawTeamRecord → List (EnrichedMember α) × List SkipWarning
  | [] => ([], [])
  | m :: rest =>
    let r := mergeMembers locMap rest
    match mapGet locMap (memberKey m) with
    | some c => (enrichMember m c :: r.1, r.2)
    | none => (r.1, warnFor m :: r.2)

/-- Output of the merger relevant to the claims: the served team list and
the skip warnings (the metadata block only wraps a count and a timestamp). -/
structure ProcResult (α : Type) where
  team : List (EnrichedMember α)
  warnings : List SkipWarning

/-- `processTeamData`: build the coordinate lookup from the geocode artifact,
then join every raw record against it. -/
def processTeamData {α : Type} (members : List RawTeamRecord) (results : List (GeoEntry α)) :
    ProcResult α :=
  let locMap := buildLocationMap results
  let r := mergeMembers locMap members
  ⟨r.1, r.2⟩

/-! ### Serving layer (`teamRoutes`, GET /team/:id) -/

structure TeamMetadata where
  totalMembers : Nat
  lastUpdated : String
  source : String
  dataVersion : String
deriving DecidableEq

structure TeamData (α : Type) where
  metadata : TeamMetadata
  team : List (EnrichedMember α)
deriving DecidableEq

/-- Reply shape of the member-by-id route. -/
structure MemberReply (α : Type) where
  statusCode : Nat
  success : Bool
  payload : Option (EnrichedMember α)
  errorMsg : Option String
deriving DecidableEq

/-- `m.id === parseInt(id)`: strict equality, false when parseInt yields
NaN. -/
def matchesId {α : Type} (idStr : String) (m : EnrichedMember α) : Bool :=
  match jsParseInt idStr with
  | some n => decide (m.id = n)
  | none => false

/-- The GET /team/:id handler: `find` on the loaded team, 404 with
`success:false` when absent. -/
def getTeamMemberById {α : Type} (data : TeamData α) (idStr : String) : MemberReply α :=
  match data.team.find? (matchesId idStr) with
  | some m => ⟨200, true, some m, none⟩
  | none => ⟨404, false, none, some "Team member not found"⟩

/-! ### Facts about the string primitives -/

theorem charsInfix_iff (pat l : List Char) : charsInfix pat l = true ↔ pat <:+: l := by
  induction l with
  | nil => simp [charsInfix, List.isEmpty_iff, List.infix_nil]
  | cons c rest ih =>
    simp [charsInfix, List.infix_cons_iff, ih, List.isPrefixOf_iff_prefix]

theorem jsIncludes_iff {s pat : String} : jsIncludes s pat = true ↔ pat.data <:+: s.data :=
  charsInfix_iff _ _

theorem jsIncludes_empty (s : String) : jsIncludes s "" = true :=
  jsIncludes_iff.mpr (List.nil_infix)

theorem singleton_infix_iff {γ : Type} (a : γ) (l : List γ) : [a] <:+: l ↔ a ∈ l := by
  constructor
  · intro h
    exact h.subset (List.mem_singleton_self a)
  · intro h
    obtain ⟨s, t, rfl⟩ := List.append_of_mem h
    exact ⟨s, t, by simp⟩

theorem jsIncludes_false_mono {s t pat : String} (hsub : s.data <:+: t.data)
    (h : jsIncludes t pat = false) : jsIncludes s pat = false := by
  cases hx : jsIncludes s pat with
  | false => rfl
  | true =>
    have hin : jsIncludes t pat = true :=
      jsIncludes_iff.mpr ((jsIncludes_iff.mp hx).trans hsub)
    rw [h] at hin
    cases hin

theorem trimChars_within (l : List Char) : trimChars l <:+: l :=
  (List.rdropWhile_prefix _ _).isInfix.trans (List.dropWhile_suffix _).isInfix

theorem trimChars_idem (l : List Char) : trimChars (trimChars l) = trimChars l := by
  unfold trimChars
  have h1 : (List.rdropWhile jsWsChar (l.dropWhile jsWsChar)).dropWhile jsWsChar
      = List.rdropWhile jsWsChar (l.dropWhile jsWsChar) := by
    cases hrd : List.rdropWhile jsWsChar (l.dropWhile jsWsChar) with
    | nil => simp
    | cons a t =>
      have hpre := List.rdropWhile_prefix jsWsChar (l.dropWhile jsWsChar)
      rw [hrd] at hpre
      obtain ⟨u, hu⟩ := hpre
      have hhead : (l.dropWhile jsWsChar).head? = some a := by
        rw [← hu]; rfl
      have hws : jsWsChar a = false := by
        have hnot := List.head?_dropWhile_not jsWsChar l
        rw [hhead] at hnot
        exact hnot
      simp [List.dropWhile_cons, hws]
  rw [h1, List.rdropWhile_idempotent]

theorem jsTrim_idem (s : String) : jsTrim (jsTrim s) = jsTrim s :=
  congrArg String.mk (trimChars_idem s.data)

theorem jsTrim_data_within (s : String) : (jsTrim s).data <:+: s.data :=
  trimChars_within s.data

/-! ### Facts about the `Map` model -/

theorem mapGet_mapSet_self {β : Type} (m : List (String × β)) (k : String) (v : β) :
    mapGet (mapSet m k v) k = some v := by
  induction m with
  | nil => simp [mapSet, mapGet]
  | cons p rest ih =>
    obtain ⟨k', v'⟩ := p
    by_cases h : k' = k
    · simp [mapSet, h, mapGet]
    · simp [mapSet, h, mapGet, ih]

theorem mapGet_mapSet_other {β : Type} (m : List (String × β)) (k : String) (v : β)
    (q : String) (h : q ≠ k) : mapGet (mapSet m k v) q = mapGet m q := by
  have hkq : ¬k = q := fun hh => h hh.symm
  induction m with
  | nil => simp [mapSet, mapGet, hkq]
  | cons p rest ih =>
    obtain ⟨k', v'⟩ := p
    by_cases hk : k' = k
    · subst hk
      simp [mapSet, mapGet, hkq]
    · simp [mapSet, mapGet, hk, ih]

theorem mapGet_eq_none_iff {β : Type} (m : List (String × β)) (k : String) :
    mapGet m k = none ↔ k ∉ m.map Prod.fst := by
  induction m with
  | nil => simp [mapGet]
  | cons p rest ih =>
    obtain ⟨k', v'⟩ := p
    by_cases h : k' = k
    · subst h; simp [mapGet]
    · rw [List.map_cons]
      simp only [mapGet, if_neg h, ih, List.mem_cons]
      constructor
      · intro hnot hor
        rcases hor with h1 | h1
        · exact h h1.symm
        · exact hnot h1
      · intro hnot h1
        exact hnot (Or.inr h1)

theorem keys_mapSet_of_mem {β : Type} (m : List (String × β)) (k : String) (v : β)
    (h : k ∈ m.map Prod.fst) : (mapSet m k v).map Prod.fst = m.map Prod.fst := by
  induction m with
  | nil => simp at h
  | cons p rest ih =>
    obtain ⟨k', v'⟩ := p
    by_cases hk : k' = k
    · simp [mapSet, hk]
    · have h' : k ∈ rest.map Prod.fst := by
        rw [List.map_cons, List.mem_cons] at h
        rcases h with h1 | h1
        · exact absurd h1.symm hk
        · exact h1
      simp [mapSet, hk, ih h']

theorem keys_mapSet_of_not_mem {β : Type} (m : List (String × β)) (k : String) (v : β)
    (h : k ∉ m.map Prod.fst) : (mapSet m k v).map Prod.fst = m.map Prod.fst ++ [k] := by
  induction m with
  | nil => simp [mapSet]
  | cons p rest ih =>
    obtain ⟨k', v'⟩ := p
    have hk : k' ≠ k := by
      intro hh
      exact h (by simp [hh])
    have h' : k ∉ rest.map Prod.fst := fun hh => h (by simp [hh])
    simp [mapSet, hk, ih h']

theorem nodup_keys_mapSet {β : Type} (m : List (String × β)) (k : String) (v : β)
    (h : (m.map Prod.fst).Nodup) : ((mapSet m k v).map Prod.fst).Nodup := by
  by_cases hm : k ∈ m.map Prod.fst
  · rw [keys_mapSet_of_mem m k v hm]; exact h
  · rw [keys_mapSet_of_not_mem m k v hm]
    simp [List.nodup_append, h, hm]

theorem mem_of_mapGet_eq_some {β : Type} {m : List (String × β)} {k : String} {v : β}
    (h : mapGet m k = some v) : (k, v) ∈ m := by
  induction m with
  | nil => simp [mapGet] at h
  | cons p rest ih =>
    obtain ⟨k', v'⟩ := p
    by_cases hk : k' = k
    · subst hk
      rw [show mapGet ((k', v') :: rest) k' = some v' from by simp [mapGet]] at h
      injection h with h1
      subst h1
      exact List.mem_cons_self _ _
    · rw [show mapGet ((k', v') :: rest) k = mapGet rest k from by simp [mapGet, hk]] at h
      exact List.mem_cons_of_mem _ (ih h)

theorem mapGet_of_mem_nodup {β : Type} {m : List (String × β)} (hn : (m.map Prod.fst).Nodup)
    {k : String} {v : β} (hm : (k, v) ∈ m) : mapGet m k = some v := by
  induction m with
  | nil => simp at hm
  | cons p rest ih =>
    obtain ⟨k', v'⟩ := p
    have hpair : ((k', v') :: rest).map Prod.fst = k' :: rest.map Prod.fst := List.map_cons _ _ _
    rw [hpair] at hn
    have hn' : (rest.map Prod.fst).Nodup := (List.nodup_cons.mp hn).2
    have hnotin : k' ∉ rest.map Prod.fst := (List.nodup_cons.mp hn).1
    rcases List.mem_cons.mp hm with h1 | h1
    · rw [Prod.mk.injEq] at h1
      obtain ⟨h1a, h1b⟩ := h1
      subst h1a
      subst h1b
      simp [mapGet]
    · have hk : k' ≠ k := by
        intro hh
        subst hh
        exact hnotin (List.mem_map.mpr ⟨(k', v), h1, rfl⟩)
      simp [mapGet, hk, ih hn' h1]

/-! ### Counting helpers -/

theorem countP_filter_split {γ : Type} (l : List γ) (f q : γ → Bool) :
    (l.filter f).countP q + (l.filter (fun a => !f a)).countP q = l.countP q := by
  induction l with
  | nil => simp
  | cons a t ih =>
    by_cases hf : f a <;> by_cases hq : q a <;>
      simp [List.filter_cons, List.countP_cons, hf, hq] <;> omega

theorem count_eq_one_of_nodup {γ : Type} [DecidableEq γ] {l : List γ} (hn : l.Nodup)
    {a : γ} (ha : a ∈ l) : l.count a = 1 := by
  have h1 := List.nodup_iff_count_le_one.mp hn a
  have h2 := List.count_pos_iff.mpr ha
  omega

/-! ### Key injectivity under a separator-free discipline -/

theorem bar_append_inj {l1 l2 l1' l2' : List Char} (h1 : '|' ∉ l1) (h2 : '|' ∉ l1')
    (h : l1 ++ '|' :: l2 = l1' ++ '|' :: l2') : l1 = l1' ∧ l2 = l2' := by
  induction l1 generalizing l1' with
  | nil =>
    cases l1' with
    | nil => simpa using h
    | cons c t =>
      rw [List.nil_append, List.cons_append, List.cons.injEq] at h
      exact absurd (h.1 ▸ List.mem_cons_self c t) h2
  | cons c t ih =>
    cases l1' with
    | nil =>
      rw [List.nil_append, List.cons_append, List.cons.injEq] at h
      exact absurd (h.1.symm ▸ List.mem_cons_self c t) h1
    | cons c' t' =>
      rw [List.cons_append, List.cons_append, List.cons.injEq] at h
      obtain ⟨hc, hrest⟩ := h
      have h1' : '|' ∉ t := fun hm => h1 (List.mem_cons_of_mem _ hm)
      have h2' : '|' ∉ t' := fun hm => h2 (List.mem_cons_of_mem _ hm)
      obtain ⟨ht, hl⟩ := ih h1' h2' hrest
      exact ⟨by rw [hc, ht], hl⟩

theorem jsOStr_inj {a b : Option String} (ha : a ≠ some "null") (hb : b ≠ some "null")
    (h : jsOStr a = jsOStr b) : a = b := by
  cases a with
  | none =>
    cases b with
    | none => rfl
    | some s =>
      have hs : ("null" : String) = s := h
      exact absurd (congrArg Option.some hs.symm) hb
  | some s =>
    cases b with
    | none =>
      have hs : s = ("null" : String) := h
      exact absurd (congrArg Option.some hs) ha
    | some t =>
      have hs : s = t := h
      rw [hs]

theorem keyOfPair_inj {a b c d : Option String}
    (hba : '|' ∉ (jsOStr a).data) (hbc : '|' ∉ (jsOStr c).data)
    (h : keyOfPair a b = keyOfPair c d) : jsOStr a = jsOStr c ∧ jsOStr b = jsOStr d := by
  have hd := congrArg String.data h
  rw [show (keyOfPair a b).data = (jsOStr a).data ++ '|' :: (jsOStr b).data from by
        simp [keyOfPair, String.data_append],
      show (keyOfPair c d).data = (jsOStr c).data ++ '|' :: (jsOStr d).data from by
        simp [keyOfPair, String.data_append]] at hd
  obtain ⟨hx, hy⟩ := bar_append_inj hba hbc hd
  exact ⟨String.ext hx, String.ext hy⟩

/-- Pairwise key discipline: records whose fields contain no '|' and are not
the literal string "null" have injectively rendered keys. -/
theorem memberKey_inj {m1 m2 : RawTeamRecord}
    (h1a : '|' ∉ (jsOStr m1.location).data) (h1b : m1.location ≠ some "null")
    (h1c : m1.country ≠ some "null")
    (h2a : '|' ∉ (jsOStr m2.location).data) (h2b : m2.location ≠ some "null")
    (h2c : m2.country ≠ some "null")
    (h : memberKey m1 = memberKey m2) : m1.location = m2.location ∧ m1.country = m2.country := by
  obtain ⟨hx, hy⟩ := keyOfPair_inj h1a h2a h
  exact ⟨jsOStr_inj h1b h2b hx, jsOStr_inj h1c h2c hy⟩

/-! ### Invariant of the extractor's location set -/

/-- What the `locationMap` fold maintains: keys are distinct, every stored
entry carries the (location, country) pair of some processed member whose key
it is, and every processed member's key is present. -/
structure SetInv (acc : List (String × LocEntry)) (processed : List RawTeamRecord) : Prop where
  nodup : (acc.map Prod.fst).Nodup
  sound : ∀ k e, mapGet acc k = some e →
    ∃ m', m' ∈ processed ∧ memberKey m' = k ∧ e.location = m'.location ∧ e.country = m'.country
  complete : ∀ m', m' ∈ processed → (mapGet acc (memberKey m')).isSome = true

theorem setInv_nil : SetInv [] [] := by
  refine ⟨by simp, ?_, ?_⟩
  · intro k e h
    simp [mapGet] at h
  · intro m' h
    simp at h

theorem addMember_inv {acc : List (String × LocEntry)} {processed : List RawTeamRecord}
    {m : RawTeamRecord} (h : SetInv acc processed) :
    SetInv (addMember acc m) (processed ++ [m]) := by
  rcases hk : mapGet acc (memberKey m) with _ | d
  · -- fresh key: insert the zero entry, then bump it
    have hnotin : memberKey m ∉ acc.map Prod.fst := (mapGet_eq_none_iff acc _).mp hk
    have hred : addMember acc m =
        mapSet (mapSet acc (memberKey m) ⟨m.location, m.country, 0, []⟩) (memberKey m)
          ⟨m.location, m.country, 0 + 1, [] ++ [memberName m]⟩ := by
      simp only [addMember, hk, mapGet_mapSet_self]
    rw [hred]
    refine ⟨?_, ?_, ?_⟩
    · apply nodup_keys_mapSet
      apply nodup_keys_mapSet
      exact h.nodup
    · intro k e hget
      by_cases hkq : k = memberKey m
      · subst hkq
        rw [mapGet_mapSet_self] at hget
        injection hget with he
        subst he
        exact ⟨m, List.mem_append_right _ (List.mem_singleton_self m), rfl, rfl, rfl⟩
      · rw [mapGet_mapSet_other _ _ _ _ hkq, mapGet_mapSet_other _ _ _ _ hkq] at hget
        obtain ⟨m', hm', hkey, hloc, hcty⟩ := h.sound k e hget
        exact ⟨m', List.mem_append_left _ hm', hkey, hloc, hcty⟩
    · intro m' hm'
      rcases List.mem_append.mp hm' with h1 | h1
      · by_cases hkq : memberKey m' = memberKey m
        · rw [hkq, mapGet_mapSet_self]; rfl
        · rw [mapGet_mapSet_other _ _ _ _ hkq, mapGet_mapSet_other _ _ _ _ hkq]
          exact h.complete m' h1
      · rw [List.mem_singleton.mp h1, mapGet_mapSet_self]; rfl
  · -- existing key: bump the stored entry, pair fields preserved
    have hred : addMember acc m =
        mapSet acc (memberKey m) ⟨d.location, d.country, d.count + 1, d.members ++ [memberName m]⟩ := by
      simp only [addMember, hk]
    rw [hred]
    refine ⟨?_, ?_, ?_⟩
    · exact nodup_keys_mapSet _ _ _ h.nodup
    · intro k e hget
      by_cases hkq : k = memberKey m
      · subst hkq
        rw [mapGet_mapSet_self] at hget
        injection hget with he
        obtain ⟨m', hm', hkey, hloc, hcty⟩ := h.sound (memberKey m) d hk
        refine ⟨m', List.mem_append_left _ hm', hkey, ?_, ?_⟩
        · rw [← he]; exact hloc
        · rw [← he]; exact hcty
      · rw [mapGet_mapSet_other _ _ _ _ hkq] at hget
        obtain ⟨m', hm', hkey, hloc, hcty⟩ := h.sound k e hget
        exact ⟨m', List.mem_append_left _ hm', hkey, hloc, hcty⟩
    · intro m' hm'
      rcases List.mem_append.mp hm' with h1 | h1
      · by_cases hkq : memberKey m' = memberKey m
        · rw [hkq, mapGet_mapSet_self]; rfl
        · rw [mapGet_mapSet_other _ _ _ _ hkq]
          exact h.complete m' h1
      · rw [List.mem_singleton.mp h1, mapGet_mapSet_self]; rfl

theorem foldl_addMember_inv (ms : List RawTeamRecord) :
    ∀ (acc : List (String × LocEntry)) (processed : List RawTeamRecord),
      SetInv acc processed → SetInv (ms.foldl addMember acc) (processed ++ ms) := by
  induction ms with
  | nil =>
    intro acc processed h
    simpa using h
  | cons m rest ih =>
    intro acc processed h
    have h2 := ih (addMember acc m) (processed ++ [m]) (addMember_inv h)
    rw [List.append_assoc] at h2
    simpa using h2

theorem buildLocationSet_inv (members : List RawTeamRecord) :
    SetInv (buildLocationSet members) members := by
  have h := foldl_addMember_inv members [] [] setInv_nil
  simpa [buildLocationSet] using h

/-! ### The merger's coordinate map agrees with a first-match lookup -/

theorem entryHit_iff {α : Type} (k : String) (e : GeoEntry α) :
    entryHit k e = true ↔ entryKey e = k ∧ e.success = true ∧ e.geocoded.isSome = true := by
  unfold entryHit
  simp [Bool.and_eq_true, decide_eq_true_eq, and_assoc]

theorem successFor_cons {α : Type} (e : GeoEntry α) (rest : List (GeoEntry α)) (k : String) :
    successFor (e :: rest) k =
      if entryHit k e then
        (match e.geocoded with
         | some g => some ⟨g.lat, g.lng, g.formattedAddress⟩
         | none => none)
      else successFor rest k := by
  by_cases h : entryHit k e
  · rw [if_pos h]
    unfold successFor
    rw [List.find?_cons_of_pos _ h]
  · rw [if_neg h]
    unfold successFor
    rw [List.find?_cons_of_neg _ (by simpa using h)]

theorem mapGet_foldl_mergeStep_skip {α : Type} (results : List (GeoEntry α)) (k : String)
    (h : ∀ e ∈ results, entryKey e ≠ k) :
    ∀ acc, mapGet (results.foldl mergeStep acc) k = mapGet acc k := by
  induction results with
  | nil => intro acc; rfl
  | cons e rest ih =>
    intro acc
    have hkey : entryKey e ≠ k := h e (List.mem_cons_self _ _)
    have hstep : mapGet (mergeStep acc e) k = mapGet acc k := by
      unfold mergeStep
      by_cases hs : e.success
      · rw [if_pos hs]
        cases hg : e.geocoded with
        | none => rfl
        | some g => exact mapGet_mapSet_other _ _ _ _ (fun hh => hkey hh.symm)
      · rw [if_neg hs]
    rw [List.foldl_cons, ih (fun e' he' => h e' (List.mem_cons_of_mem _ he')), hstep]

theorem mapGet_foldl_mergeStep {α : Type} (results : List (GeoEntry α))
    (hn : (results.map entryKey).Nodup) (k : String) :
    ∀ acc, mapGet (results.foldl mergeStep acc) k =
      match successFor results k with
      | some c => some c
      | none => mapGet acc k := by
  induction results with
  | nil => intro acc; rfl
  | cons e rest ih =>
    intro acc
    rw [List.map_cons] at hn
    have hn' : (rest.map entryKey).Nodup := (List.nodup_cons.mp hn).2
    have hnotin : entryKey e ∉ rest.map entryKey := (List.nodup_cons.mp hn).1
    rw [List.foldl_cons, successFor_cons]
    by_cases hhit : entryHit k e
    · rw [if_pos hhit]
      obtain ⟨hk, hs, hg⟩ := (entryHit_iff k e).mp hhit
      obtain ⟨g, hge⟩ := Option.isSome_iff_exists.mp hg
      have hskip : ∀ e' ∈ rest, entryKey e' ≠ k := by
        intro e' he' hc
        apply hnotin
        rw [hk, ← hc]
        exact List.mem_map.mpr ⟨e', he', rfl⟩
      rw [mapGet_foldl_mergeStep_skip rest k hskip]
      rw [show mergeStep acc e = mapSet acc (entryKey e) ⟨g.lat, g.lng, g.formattedAddress⟩ from by
            unfold mergeStep
            rw [if_pos hs, hge]]
      rw [hk, mapGet_mapSet_self, hge]
    · rw [if_neg hhit]
      have hstep : mapGet (mergeStep acc e) k = mapGet acc k := by
        unfold mergeStep
        by_cases hs : e.success
        · rw [if_pos hs]
          cases hge : e.geocoded with
          | none => rfl
          | some g =>
            have hkne : entryKey e ≠ k := by
              intro hc
              apply hhit
              exact (entryHit_iff k e).mpr ⟨hc, hs, by rw [hge]; rfl⟩
            exact mapGet_mapSet_other _ _ _ _ (fun hh => hkne hh.symm)
        · rw [if_neg hs]
      rw [ih hn' (mergeStep acc e), hstep]

theorem buildLocationMap_eq_successFor {α : Type} (results : List (GeoEntry α))
    (hn : (results.map entryKey).Nodup) (k : String) :
    mapGet (buildLocationMap results) k = successFor results k := by
  have h := mapGet_foldl_mergeStep results hn k []
  cases hsf : successFor results k with
  | none =>
    rw [buildLocationMap, h, hsf]
    rfl
  | some c =>
    rw [buildLocationMap, h, hsf]

theorem successFor_eq_of_mem {α : Type} {results : List (GeoEntry α)}
    (hn : (results.map entryKey).Nodup) {e : GeoEntry α} (he : e ∈ results)
    {g : GeocodedInfo α} (hs : e.success = true) (hg : e.geocoded = some g) :
    successFor results (entryKey e) = some ⟨g.lat, g.lng, g.formattedAddress⟩ := by
  induction results with
  | nil => cases he
  | cons f rest ih =>
    rw [List.map_cons] at hn
    have hn' := (List.nodup_cons.mp hn).2
    have hnotin := (List.nodup_cons.mp hn).1
    rcases List.mem_cons.mp he with h1 | h1
    · subst h1
      rw [successFor_cons, if_pos ((entryHit_iff _ _).mpr ⟨rfl, hs, by rw [hg]; rfl⟩), hg]
    · have hne : entryKey f ≠ entryKey e := by
        intro hc
        exact hnotin (hc ▸ List.mem_map.mpr ⟨e, h1, rfl⟩)
      rw [successFor_cons, if_neg (fun hh => hne ((entryHit_iff _ _).mp hh).1), ih hn' h1]

theorem successFor_eq_none_of_failed {α : Type} {results : List (GeoEntry α)}
    (hn : (results.map entryKey).Nodup) {e : GeoEntry α} (he : e ∈ results)
    (hf : e.success = false) : successFor results (entryKey e) = none := by
  have hfind : results.find? (entryHit (entryKey e)) = none := by
    rw [List.find?_eq_none]
    intro x hx hhit
    obtain ⟨hk, hs, _⟩ := (entryHit_iff _ _).mp hhit
    have hxe : x = e := List.inj_on_of_nodup_map hn hx he hk
    rw [hxe, hf] at hs
    cases hs
  unfold successFor
  rw [hfind]

theorem filterMap_filter_of_none {γ δ : Type} (l : List γ) (keep : γ → Bool) (f : γ → Option δ)
    (h : ∀ a ∈ l, keep a = false → f a = none) :
    (l.filter keep).filterMap f = l.filterMap f := by
  induction l with
  | nil => rfl
  | cons a t ih =>
    have ht : ∀ a' ∈ t, keep a' = false → f a' = none :=
      fun a' ha' => h a' (List.mem_cons_of_mem _ ha')
    by_cases hk : keep a = true
    · simp [List.filter_cons, hk, List.filterMap_cons, ih ht]
    · have hka : keep a = false := by simpa using hk
      have hfa : f a = none := h a (List.mem_cons_self _ _) hka
      simp [List.filter_cons, hka, List.filterMap_cons, hfa, ih ht]

theorem mem_keys_of_isSome {β : Type} {m : List (String × β)} {k : String}
    (h : (mapGet m k).isSome = true) : k ∈ m.map Prod.fst := by
  by_contra hc
  have hnone := (mapGet_eq_none_iff m k).mpr hc
  rw [hnone] at h
  simp at h

theorem countP_fst_eq_of_nodup {β : Type} (l : List (String × β))
    (hn : (l.map Prod.fst).Nodup) {k : String} (hk : k ∈ l.map Prod.fst) :
    l.countP (fun p => decide (p.1 = k)) = 1 := by
  induction l with
  | nil => simp at hk
  | cons p rest ih =>
    obtain ⟨k', v⟩ := p
    rw [List.map_cons] at hn hk
    have hn' := (List.nodup_cons.mp hn).2
    have hnotin := (List.nodup_cons.mp hn).1
    rcases List.mem_cons.mp hk with h1 | h1
    · have hnotin' : k ∉ rest.map Prod.fst := by rw [h1]; exact hnotin
      have hrest : rest.countP (fun p => decide (p.1 = k)) = 0 := by
        rw [List.countP_eq_zero]
        intro a ha hpa
        rw [decide_eq_true_eq] at hpa
        exact hnotin' (List.mem_map.mpr ⟨a, ha, hpa⟩)
      have h1' : k' = k := h1.symm
      simp [List.countP_cons, hrest, h1']
    · have hne : k' ≠ k := by
        intro hc
        subst hc
        exact hnotin h1
      simp [List.countP_cons, hne, ih hn' h1]

/-! ### mergeMembers characterization -/

theorem mergeMembers_fst {α : Type} (locMap : List (String × LocCoords α))
    (ms : List RawTeamRecord) :
    (mergeMembers locMap ms).1 =
      ms.filterMap (fun m => (mapGet locMap (memberKey m)).map (enrichMember m)) := by
  induction ms with
  | nil => rfl
  | cons m rest ih =>
    cases hm : mapGet locMap (memberKey m) <;>
      simp [mergeMembers, hm, List.filterMap_cons, ih]

theorem mergeMembers_snd {α : Type} (locMap : List (String × LocCoords α))
    (ms : List RawTeamRecord) :
    (mergeMembers locMap ms).2 =
      ms.filterMap (fun m =>
        match mapGet locMap (memberKey m) with
        | some _ => none
        | none => some (warnFor m)) := by
  induction ms with
  | nil => rfl
  | cons m rest ih =>
    cases hm : mapGet locMap (memberKey m) <;>
      simp [mergeMembers, hm, List.filterMap_cons, ih]

/-! ### verifyLoop characterization -/

theorem verifyLoop_eq_filterMap {α : Type} (reverse : α → α → Option (List RevResult))
    (l : List (GeoEntry α)) :
    verifyLoop reverse l = l.filterMap (checkEntry reverse) := by
  induction l with
  | nil => rfl
  | cons e t ih =>
    cases h : checkEntry reverse e <;> simp [verifyLoop, h, ih]

theorem verifyLoop_append {α : Type} (reverse : α → α → Option (List RevResult))
    (l1 l2 : List (GeoEntry α)) :
    verifyLoop reverse (l1 ++ l2) = verifyLoop reverse l1 ++ verifyLoop reverse l2 := by
  simp [verifyLoop_eq_filterMap]

/-! ### Stability lemmas for the normalizer -/

theorem mem_takeWhile_ne_comma (l : List Char) : ',' ∉ l.takeWhile (fun c => c ≠ ',') := by
  induction l with
  | nil => simp
  | cons c t ih =>
    by_cases hc : c = ','
    · simp [List.takeWhile_cons, hc]
    · rw [List.takeWhile_cons, if_pos (by simp [hc])]
      intro hmem
      rcases List.mem_cons.mp hmem with h1 | h1
      · exact hc h1.symm
      · exact ih h1

theorem jsIncludes_comma_false_of_not_mem (r : String) (h : ',' ∉ r.data) :
    jsIncludes r "," = false := by
  cases hx : jsIncludes r "," with
  | false => rfl
  | true =>
    have hinf : (",".data) <:+: r.data := jsIncludes_iff.mp hx
    have hmem : ',' ∈ r.data := (singleton_infix_iff ',' r.data).mp hinf
    exact absurd hmem h

theorem no_comma_trim_takeBefore (s : String) :
    jsIncludes (jsTrim (takeBeforeComma s)) "," = false := by
  apply jsIncludes_comma_false_of_not_mem
  intro hmem
  have hsub : (jsTrim (takeBeforeComma s)).data <:+: (takeBeforeComma s).data :=
    trimChars_within _
  have hmem' : ',' ∈ (takeBeforeComma s).data := hsub.subset hmem
  exact mem_takeWhile_ne_comma s.data hmem'

theorem ruleFour_cases (s : String) (country : Option String) :
    ruleFour s country = s ∨ ruleFour s country = jsTrim (takeBeforeComma s) := by
  unfold ruleFour
  split
  · split
    · split
      · exact Or.inr rfl
      · exact Or.inl rfl
    · exact Or.inl rfl
  · exact Or.inl rfl

theorem ruleFour_idem (s : String) (country : Option String) :
    ruleFour (ruleFour s country) country = ruleFour s country := by
  rcases ruleFour_cases s country with h | h
  · rw [h]
    exact h
  · rw [h]
    unfold ruleFour
    rw [if_neg (by simp [no_comma_trim_takeBefore s])]

theorem ruleFour_of_no_comma (s : String) (country : Option String)
    (h : jsIncludes s "," = false) : ruleFour s country = s := by
  unfold ruleFour
  rw [if_neg (fun hc => by rw [h] at hc; exact Bool.noConfusion hc.2)]

theorem northPole_stable (country : Option String) :
    normalizeLocation (some "North Pole") country = "North Pole" := by
  have e1 : jsTrim "North Pole" = "North Pole" := by decide
  have e2 : jsIncludes "North Pole" ", UK" = false := by decide
  have e3 : jsIncludes "North Pole" "Greater" = false := by decide
  have e4 : jsIncludes "North Pole" "," = false := by decide
  simp only [normalizeLocation]
  rw [if_neg (by decide), e1]
  have hn2 : (if country = some "GB" ∧ jsIncludes "North Pole" ", UK" = true
      then removeFirstStr "North Pole" ", UK" else "North Pole") = "North Pole" :=
    if_neg (fun h => by rw [e2] at h; exact Bool.noConfusion h.2)
  rw [hn2]
  have hn3 : (if jsIncludes "North Pole" "Greater" = true ∧ jsIncludes "North Pole" "Area" = true
      then (⟨replaceWsArea (replaceGreaterWs "North Pole".data)⟩ : String)
      else "North Pole") = "North Pole" :=
    if_neg (fun h => by rw [e3] at h; exact Bool.noConfusion h.1)
  rw [hn3]
  exact ruleFour_of_no_comma "North Pole" country e4

/-- When the guard branch is not taken and neither the ", UK" rule nor the
"Greater … Area" rule can fire, the normalizer is trim followed by the
country-comma rule. -/
theorem normalize_main_case (l : String) (country : Option String)
    (hguard : ¬(l = "" ∨ l = "null" ∨ jsToLower l = "world"))
    (hUK : jsIncludes (jsTrim l) ", UK" = false)
    (hGr : jsIncludes (jsTrim l) "Greater" = false) :
    normalizeLocation (some l) country = ruleFour (jsTrim l) country := by
  simp only [normalizeLocation]
  rw [if_neg hguard]
  have hn2 : (if country = some "GB" ∧ jsIncludes (jsTrim l) ", UK" = true
      then removeFirstStr (jsTrim l) ", UK" else jsTrim l) = jsTrim l :=
    if_neg (fun h => by rw [hUK] at h; exact Bool.noConfusion h.2)
  rw [hn2]
  have hn3 : (if jsIncludes (jsTrim l) "Greater" = true ∧ jsIncludes (jsTrim l) "Area" = true
      then (⟨replaceWsArea (replaceGreaterWs (jsTrim l).data)⟩ : String)
      else jsTrim l) = jsTrim l :=
    if_neg (fun h => by rw [hGr] at h; exact Bool.noConfusion h.1)
  rw [hn3]

/-! ### Specification-side predicates -/

/-- Specification-side: the location is absent, empty, or the literal
null-marker string. -/
def emptyOrNullLoc (location : Option String) : Prop :=
  location = none ∨ location = some "" ∨ location = some "null"

/-- Specification-side case-insensitive containment: `needle` occurs in
`hay` when both are lowercased. -/
def ciContains (hay needle : String) : Prop :=
  (jsToLower needle).data <:+: (jsToLower hay).data

theorem jsMatchCheck_iff (r : RevResult) (orig : String) :
    jsMatchCheck r orig = true ↔
      ciContains r.formattedAddress orig ∨ ciContains orig ((r.city).getD "") := by
  unfold jsMatchCheck ciContains
  rw [Bool.or_eq_true]
  apply or_congr
  · exact jsIncludes_iff
  · cases hc : r.city with
    | none =>
      rw [show ((none : Option String).map jsToLower).getD "" = "" from rfl,
          show ((none : Option String).getD "") = "" from rfl,
          show jsToLower "" = "" from rfl]
      exact jsIncludes_iff
    | some c =>
      rw [show ((some c).map jsToLower).getD "" = jsToLower c from rfl,
          show ((some c).getD "") = c from rfl]
      exact jsIncludes_iff

/-! ### Claim theorems -/

/-- C4: the problematic classifier returns true exactly on empty/null
locations (including the literal "null" marker) and on locations that
case-insensitively contain one of the fixed placeholder keywords (the
denylist names the spec's "not-applicable" and "to-be-determined" by their
in-data markers 'n/a' and 'tbd'), and returns false otherwise. -/
theorem c4_problematic_classifier (location : Option String) :
    isPotentiallyProblematic location = true ↔
      (emptyOrNullLoc location
        ∨ ∃ k ∈ problematicKeywords, ∃ s, location = some s ∧ ciContains s k) := by
  cases location with
  | none =>
    constructor
    · intro _
      exact Or.inl (Or.inl rfl)
    · intro _
      rfl
  | some l =>
    by_cases hg : l = "" ∨ l = "null"
    · constructor
      · intro _
        rcases hg with h | h
        · exact Or.inl (Or.inr (Or.inl (by rw [h])))
        · exact Or.inl (Or.inr (Or.inr (by rw [h])))
      · intro _
        simp only [isPotentiallyProblematic]
        rw [if_pos hg]
    · have hlower : ∀ k ∈ problematicKeywords, jsToLower k = k := by decide
      simp only [isPotentiallyProblematic]
      rw [if_neg hg, List.any_eq_true]
      constructor
      · rintro ⟨k, hk, hkt⟩
        refine Or.inr ⟨k, hk, l, rfl, ?_⟩
        unfold ciContains
        rw [hlower k hk]
        exact jsIncludes_iff.mp hkt
      · rintro (he | ⟨k, hk, s, hs, hc⟩)
        · exfalso
          rcases he with h | h | h
          · exact Option.noConfusion h
          · injection h with h'
            exact hg (Or.inl h')
          · injection h with h'
            exact hg (Or.inr h')
        · injection hs with hs'
          subst hs'
          refine ⟨k, hk, ?_⟩
          unfold ciContains at hc
          rw [hlower k hk] at hc
          exact jsIncludes_iff.mpr hc

/-- C6: the record with location "Greater Seattle Area" and country "US"
normalizes to "Seattle", and its forward-geocoder query is exactly
"Seattle, US". -/
theorem c6_greater_seattle_query :
    normalizeLocation (some "Greater Seattle Area") (some "US") = "Seattle"
    ∧ searchQuery (some "Greater Seattle Area") (some "US") = "Seattle, US" := by
  constructor
  · decide
  · decide

/-- C7: a record with null location and null country normalizes to the fixed
"North Pole" sentinel and is flagged problematic; more generally every
empty, null-marker, or case-insensitive "world" location normalizes to that
same non-empty sentinel. -/
theorem c7_null_location_sentinel :
    normalizeLocation none none = "North Pole"
    ∧ isPotentiallyProblematic none = true
    ∧ (∀ location country, (location = none ∨ location = some "" ∨ location = some "null"
          ∨ (∃ s, location = some s ∧ jsToLower s = "world")) →
        normalizeLocation location country = "North Pole")
    ∧ "North Pole" ≠ "" := by
  refine ⟨rfl, rfl, ?_, by decide⟩
  rintro location country (rfl | rfl | rfl | ⟨s, rfl, hs⟩)
  · rfl
  · rfl
  · rfl
  · simp only [normalizeLocation]
    rw [if_pos (Or.inr (Or.inr hs))]

theorem c7_witness :
    (some "WoRlD" = none ∨ some "WoRlD" = some "" ∨ some "WoRlD" = some "null"
      ∨ (∃ s, some "WoRlD" = some s ∧ jsToLower s = "world"))
    ∧ normalizeLocation (some "WoRlD") (some "US") = "North Pole" :=
  ⟨Or.inr (Or.inr (Or.inr ⟨"WoRlD", rfl, by decide⟩)),
   c7_null_location_sentinel.2.2.1 (some "WoRlD") (some "US")
     (Or.inr (Or.inr (Or.inr ⟨"WoRlD", rfl, by decide⟩)))⟩

/-- C10: when a reverse-geocode result's city field is absent or empty, the
containment check always declares a match (containment of the empty string
holds vacuously), so no VerificationMismatch is recorded for that entry,
regardless of the formatted address. -/
theorem c10_empty_city_always_match {α : Type} (reverse : α → α → Option (List RevResult))
    (loc : GeoEntry α) (g : GeocodedInfo α) (orig : String) (r : RevResult)
    (rs : List RevResult) (hg : loc.geocoded = some g) (hloc : loc.location = some orig)
    (hrev : reverse g.lat g.lng = some (r :: rs)) (hcity : r.city = none ∨ r.city = some "") :
    jsMatchCheck r orig = true ∧ checkEntry reverse loc = none := by
  have hm : jsMatchCheck r orig = true := by
    unfold jsMatchCheck
    have hc : ((r.city.map jsToLower).getD "") = "" := by
      rcases hcity with h | h <;> rw [h] <;> rfl
    rw [hc, jsIncludes_empty]
    simp
  refine ⟨hm, ?_⟩
  simp only [checkEntry, hg, hrev, hloc, hm, if_true]

/-- C9: the member-by-identifier lookup is a total function of the loaded
dataset and the raw identifier: when no member's id equals the parsed
identifier it returns the 404-shaped reply with success:false and the fixed
error message (never an exception), and when `find` locates a member it
returns success:true with that member. -/
theorem c9_member_lookup {α : Type} (data : TeamData α) (idStr : String) :
    ((∀ m ∈ data.team, matchesId idStr m = false) →
       (getTeamMemberById data idStr).statusCode = 404
       ∧ (getTeamMemberById data idStr).success = false
       ∧ (getTeamMemberById data idStr).payload = none
       ∧ (getTeamMemberById data idStr).errorMsg = some "Team member not found")
    ∧ (∀ m, data.team.find? (matchesId idStr) = some m →
       (getTeamMemberById data idStr).statusCode = 200
       ∧ (getTeamMemberById data idStr).success = true
       ∧ (getTeamMemberById data idStr).payload = some m
       ∧ (getTeamMemberById data idStr).errorMsg = none) := by
  constructor
  · intro h
    have hf : data.team.find? (matchesId idStr) = none :=
      List.find?_eq_none.mpr (fun x hx hc => by rw [h x hx] at hc; exact Bool.noConfusion hc)
    unfold getTeamMemberById
    rw [hf]
    exact ⟨rfl, rfl, rfl, rfl⟩
  · intro m hm
    unfold getTeamMemberById
    rw [hm]
    exact ⟨rfl, rfl, rfl, rfl⟩

/-- A one-member dataset used to exercise the lookup route. -/
def exMember : EnrichedMember Int :=
  { id := 5, name := "A B", firstName := "A", lastName := "B", role := none,
    location := some "X", country := some "Y", latitude := 1, longitude := 2,
    formattedAddress := none, avatar := none, biography := none, color := none,
    pronouns := none, pineappleOnPizza := none, startDate := none,
    teams := [], leadTeams := [] }

def exTeamData : TeamData Int :=
  { metadata := ⟨1, "now", "posthog.com/people", "1.0"⟩, team := [exMember] }

theorem c9_witness :
    (∀ m ∈ exTeamData.team, matchesId "99" m = false)
    ∧ (getTeamMemberById exTeamData "99").statusCode = 404
    ∧ (getTeamMemberById exTeamData "99").success = false :=
  ⟨by decide,
   ((c9_member_lookup exTeamData "99").1 (by decide)).1,
   ((c9_member_lookup exTeamData "99").1 (by decide)).2.1⟩

/-- C1: under the pipeline invariant that the geocode artifact holds at most
one entry per LocationKey, the merger's served team list is exactly one
EnrichedMember per raw record whose key has a successful GeocodeResult (each
carrying that result's latitude, longitude and formatted address verbatim),
and raw records whose key has no successful result contribute nothing. -/
theorem c1_merger_exact_join {α : Type} (members : List RawTeamRecord)
    (results : List (GeoEntry α)) (hn : (results.map entryKey).Nodup) :
    (processTeamData members results).team =
      members.filterMap (fun m => (successFor results (memberKey m)).map (enrichMember m))
    ∧ (∀ (m : RawTeamRecord) (c : LocCoords α),
        (enrichMember m c).latitude = c.latitude
        ∧ (enrichMember m c).longitude = c.longitude
        ∧ (enrichMember m c).formattedAddress = c.formattedAddress)
    ∧ (∀ e ∈ results, ∀ g : GeocodedInfo α, e.success = true → e.geocoded = some g →
        successFor results (entryKey e) = some ⟨g.lat, g.lng, g.formattedAddress⟩) := by
  refine ⟨?_, fun m c => ⟨rfl, rfl, rfl⟩,
    fun e he g hs hg => successFor_eq_of_mem hn he hs hg⟩
  show (mergeMembers (buildLocationMap results) members).1 = _
  rw [mergeMembers_fst]
  have hfun : (fun m => (mapGet (buildLocationMap results) (memberKey m)).map
        (enrichMember (α := α) m))
      = fun m => (successFor results (memberKey m)).map (enrichMember m) :=
    funext (fun m => by rw [buildLocationMap_eq_successFor results hn])
  rw [hfun]

/-- A raw record and a matching successful geocode entry. -/
def exRaw1 : RawTeamRecord :=
  ⟨7, "Ada", "L", none, some "Lisbon", some "PT",
    none, none, none, none, none, none, none, none⟩

def exEntry1 : GeoEntry Int :=
  ⟨some "Lisbon", some "PT", 1, ["Ada L"], true,
    some ⟨38, -9, some "Lisboa, Portugal", some "Lisboa", some "Portugal", some "pt"⟩, none⟩

theorem c1_witness :
    (([exEntry1].map entryKey).Nodup)
    ∧ (processTeamData [exRaw1] [exEntry1]).team =
        [exRaw1].filterMap (fun m => (successFor [exEntry1] (memberKey m)).map (enrichMember m)) :=
  ⟨by decide, (c1_merger_exact_join [exRaw1] [exEntry1] (by decide)).1⟩

/-- C2: under the same per-key uniqueness invariant, a failed GeocodeResult
for a key means the merger's coordinate lookup misses every record with that
key, each such record lands in the warning output with its name and raw
location/country, and removing those records leaves the served team list
unchanged (no EnrichedMember is produced for them). -/
theorem c2_failed_geocode_skips_and_warns {α : Type} (members : List RawTeamRecord)
    (results : List (GeoEntry α)) (hn : (results.map entryKey).Nodup)
    (e : GeoEntry α) (he : e ∈ results) (hf : e.success = false) :
    (∀ m ∈ members, memberKey m = entryKey e →
        mapGet (buildLocationMap results) (memberKey m) = none)
    ∧ (∀ m ∈ members, memberKey m = entryKey e →
        warnFor m ∈ (processTeamData members results).warnings)
    ∧ (processTeamData members results).team =
        (processTeamData (members.filter (fun m => !(decide (memberKey m = entryKey e))))
          results).team := by
  have hnone : ∀ k, k = entryKey e → mapGet (buildLocationMap results) k = none := by
    intro k hk
    rw [buildLocationMap_eq_successFor results hn, hk]
    exact successFor_eq_none_of_failed hn he hf
  refine ⟨fun m hm hk => hnone _ hk, ?_, ?_⟩
  · intro m hm hk
    show warnFor m ∈ (mergeMembers (buildLocationMap results) members).2
    rw [mergeMembers_snd]
    refine List.mem_filterMap.mpr ⟨m, hm, ?_⟩
    rw [hnone _ hk]
  · show (mergeMembers (buildLocationMap results) members).1
      = (mergeMembers (buildLocationMap results) _).1
    rw [mergeMembers_fst, mergeMembers_fst]
    refine (filterMap_filter_of_none members _ _ ?_).symm
    intro m hm hkeep
    have hk : memberKey m = entryKey e := by
      have hb : decide (memberKey m = entryKey e) = true := by
        cases hd : decide (memberKey m = entryKey e) with
        | true => rfl
        | false => rw [hd] at hkeep; exact Bool.noConfusion hkeep
      exact of_decide_eq_true hb
    rw [hnone _ hk]
    rfl

/-- A raw record whose location failed to geocode. -/
def exRaw2 : RawTeamRecord :=
  ⟨8, "Bo", "K", none, some "Atlantis", some "XX",
    none, none, none, none, none, none, none, none⟩

def exEntry2 : GeoEntry Int :=
  ⟨some "Atlantis", some "XX", 1, ["Bo K"], false, none, some "No results found"⟩

theorem c2_witness :
    (([exEntry2].map entryKey).Nodup) ∧ exEntry2 ∈ [exEntry2] ∧ exEntry2.success = false
    ∧ warnFor exRaw2 ∈ (processTeamData [exRaw2] [exEntry2]).warnings :=
  ⟨by decide, by decide, rfl,
   (c2_failed_geocode_skips_and_warns [exRaw2] [exEntry2] (by decide) exEntry2
      (by decide) rfl).2.1 exRaw2 (by decide) (by decide)⟩

/-- C8: the verification pass examines exactly the 10-element prefix of the
successful geocode results; a recorded mismatch is precisely a non-matching
examined entry, where an entry matches iff the reverse formatted address
contains the original location or the original location contains the
reverse city (case-insensitively, the city read as "" when absent); a failed
reverse request yields no mismatch; and the loop never stops early. -/
theorem c8_verification_pass {α : Type} (reverse : α → α → Option (List RevResult))
    (results : List (GeoEntry α)) :
    (∀ mm, mm ∈ verifyPass reverse results ↔
       ∃ loc, loc ∈ (results.filter (fun r => r.success)).take 10
         ∧ checkEntry reverse loc = some mm)
    ∧ (∀ loc ∈ (results.filter (fun r => r.success)).take 10,
        ∀ (g : GeocodedInfo α) (orig : String) (r : RevResult) (rs : List RevResult),
          loc.geocoded = some g → loc.location = some orig →
          reverse g.lat g.lng = some (r :: rs) →
          (checkEntry reverse loc = none ↔
            (ciContains r.formattedAddress orig ∨ ciContains orig ((r.city).getD ""))))
    ∧ (∀ (loc : GeoEntry α) (g : GeocodedInfo α), loc.geocoded = some g →
        reverse g.lat g.lng = none → checkEntry reverse loc = none)
    ∧ (∀ l1 l2 : List (GeoEntry α),
        verifyLoop reverse (l1 ++ l2) = verifyLoop reverse l1 ++ verifyLoop reverse l2) := by
  refine ⟨?_, ?_, ?_, verifyLoop_append reverse⟩
  · intro mm
    unfold verifyPass verificationsNeeded
    rw [verifyLoop_eq_filterMap, List.mem_filterMap]
  · intro loc hloc10 g orig r rs hg hlo hrev
    have hred : checkEntry reverse loc = if jsMatchCheck r orig then none
        else some ⟨orig, loc.country, (g.lat, g.lng), r.formattedAddress, loc.count⟩ := by
      simp only [checkEntry, hg, hrev, hlo]
    rw [hred]
    by_cases hm : jsMatchCheck r orig = true
    · rw [if_pos hm]
      exact ⟨fun _ => (jsMatchCheck_iff r orig).mp hm, fun _ => rfl⟩
    · rw [if_neg hm]
      constructor
      · intro hcontra
        exact Option.noConfusion hcontra
      · intro hr
        exact absurd ((jsMatchCheck_iff r orig).mpr hr) hm
  · intro loc g hg hrev
    simp only [checkEntry, hg, hrev]

/-- A successful geocode entry together with a reverse geocoder that always
throws, to exercise the failure-skip path. -/
def exRevFail : Int → Int → Option (List RevResult) := fun _ _ => none

def exEntry3 : GeoEntry Int :=
  ⟨some "Paris", some "FR", 1, ["P Q"], true,
    some ⟨48, 2, some "Paris, France", some "Paris", some "France", some "fr"⟩, none⟩

theorem c8_witness :
    exEntry3.geocoded
      = some (⟨48, 2, some "Paris, France", some "Paris", some "France", some "fr"⟩ :
          GeocodedInfo Int)
    ∧ checkEntry exRevFail exEntry3 = none :=
  ⟨rfl, (c8_verification_pass exRevFail [exEntry3]).2.2.1 exEntry3
     ⟨48, 2, some "Paris, France", some "Paris", some "France", some "fr"⟩ rfl rfl⟩

/-- Two raw records whose distinct (location, country) pairs render to the
same `location|country` key string. -/
def cexC3a : RawTeamRecord :=
  ⟨1, "A", "X", none, some "a|b", some "c", none, none, none, none, none, none, none, none⟩

def cexC3b : RawTeamRecord :=
  ⟨2, "B", "Y", none, some "a", some "b|c", none, none, none, none, none, none, none, none⟩

def cexC3members : List RawTeamRecord := [cexC3a, cexC3b]

/-- C3 counterexample: with the records ("a|b", "c") and ("a", "b|c") both
keys render to "a|b|c", the location set collapses to a single entry, and
the second record's distinct pair appears zero times — refuting "each
distinct pair appears exactly once / distinct pairs never collapse". -/
theorem c3_counterexample :
    ¬(∀ m ∈ cexC3members,
        (buildLocationSet cexC3members).countP
          (fun p => decide (p.2.location = m.location ∧ p.2.country = m.country)) = 1) := by
  decide

/-- C3 amended: provided no record's location or country contains the '|'
separator or is the literal string "null", every record's (location,
country) pair appears exactly once in the deduplicated location set, its key
occupies exactly one slot of the geocoding request list (one forward-geocode
request), records sharing a pair share a key and hence look up identical
coordinates in the merger, and distinct pairs never collapse to one key. -/
theorem c3_dedup_amended {α : Type} (members : List RawTeamRecord)
    (hclean : ∀ m ∈ members, '|' ∉ (jsOStr m.location).data ∧ '|' ∉ (jsOStr m.country).data
        ∧ m.location ≠ some "null" ∧ m.country ≠ some "null") :
    (∀ m ∈ members,
        (buildLocationSet members).countP
          (fun p => decide (p.2.location = m.location ∧ p.2.country = m.country)) = 1
        ∧ (allLocations (buildLocationSet members)).countP
            (fun p => decide (p.1 = memberKey m)) = 1)
    ∧ (∀ m1 ∈ members, ∀ m2 ∈ members,
        (m1.location = m2.location ∧ m1.country = m2.country →
          memberKey m1 = memberKey m2
          ∧ ∀ results : List (GeoEntry α),
              mapGet (buildLocationMap results) (memberKey m1)
                = mapGet (buildLocationMap results) (memberKey m2))
        ∧ (memberKey m1 = memberKey m2 →
            m1.location = m2.location ∧ m1.country = m2.country)) := by
  have inv := buildLocationSet_inv members
  have hpairinj : ∀ m1 ∈ members, ∀ m2 ∈ members, memberKey m1 = memberKey m2 →
      m1.location = m2.location ∧ m1.country = m2.country := by
    intro m1 h1 m2 h2 hk
    obtain ⟨a1, _, c1, d1⟩ := hclean m1 h1
    obtain ⟨a2, _, c2, d2⟩ := hclean m2 h2
    exact memberKey_inj a1 c1 d1 a2 c2 d2 hk
  constructor
  · intro m hm
    have hpres : (mapGet (buildLocationSet members) (memberKey m)).isSome = true :=
      inv.complete m hm
    have hkmem : memberKey m ∈ (buildLocationSet members).map Prod.fst :=
      mem_keys_of_isSome hpres
    have hcongr : ∀ p ∈ buildLocationSet members,
        ((decide (p.2.location = m.location ∧ p.2.country = m.country)) = true
          ↔ (decide (p.1 = memberKey m)) = true) := by
      intro p hp
      obtain ⟨k, e⟩ := p
      have hget : mapGet (buildLocationSet members) k = some e :=
        mapGet_of_mem_nodup inv.nodup hp
      obtain ⟨m', hm', hkey, hloc, hcty⟩ := inv.sound k e hget
      rw [decide_eq_true_eq, decide_eq_true_eq]
      constructor
      · intro hpair
        have hl : m'.location = m.location := hloc.symm.trans hpair.1
        have hc : m'.country = m.country := hcty.symm.trans hpair.2
        have hmm : memberKey m' = memberKey m := by
          unfold memberKey keyOfPair
          rw [hl, hc]
        rw [← hkey, hmm]
      · intro hkk
        have hkk' : k = memberKey m := hkk
        have hmm : memberKey m' = memberKey m := by rw [hkey]; exact hkk'
        obtain ⟨hl, hc⟩ := hpairinj m' hm' m hm hmm
        exact ⟨hloc.trans hl, hcty.trans hc⟩
    have hkeycount : (buildLocationSet members).countP
        (fun p => decide (p.1 = memberKey m)) = 1 :=
      countP_fst_eq_of_nodup _ inv.nodup hkmem
    refine ⟨?_, ?_⟩
    · rw [List.countP_congr hcongr]
      exact hkeycount
    · have hsplit : (allLocations (buildLocationSet members)).countP
          (fun p => decide (p.1 = memberKey m))
          = (buildLocationSet members).countP (fun p => decide (p.1 = memberKey m)) := by
        unfold allLocations probLocations normalLocations
        rw [List.countP_append]
        exact countP_filter_split _ _ _
      rw [hsplit]
      exact hkeycount
  · intro m1 h1 m2 h2
    refine ⟨fun hpair => ?_, fun hk => hpairinj m1 h1 m2 h2 hk⟩
    have hk : memberKey m1 = memberKey m2 := by
      unfold memberKey keyOfPair
      rw [hpair.1, hpair.2]
    exact ⟨hk, fun results => by rw [hk]⟩

/-- Two well-behaved records sharing one (location, country) pair. -/
def wRawA : RawTeamRecord :=
  ⟨3, "Cat", "M", none, some "Lisbon", some "PT",
    none, none, none, none, none, none, none, none⟩

def wRawB : RawTeamRecord :=
  ⟨4, "Dan", "N", none, some "Lisbon", some "PT",
    none, none, none, none, none, none, none, none⟩

def wMembers : List RawTeamRecord := [wRawA, wRawB]

theorem c3_witness :
    (∀ m ∈ wMembers, '|' ∉ (jsOStr m.location).data ∧ '|' ∉ (jsOStr m.country).data
        ∧ m.location ≠ some "null" ∧ m.country ≠ some "null")
    ∧ (buildLocationSet wMembers).countP
        (fun p => decide (p.2.location = wRawA.location ∧ p.2.country = wRawA.country)) = 1 :=
  ⟨by decide,
   (((c3_dedup_amended (α := Int) wMembers (by decide)).1 wRawA (by decide)).1)⟩

/-- C5 counterexample: the ", UK" rule strips only the first occurrence, so
for location "A, UK, UK" with country GB one application yields "A, UK" and
a second application yields "A" — the normalizer is not idempotent as
claimed. -/
theorem c5_counterexample :
    normalizeLocation (some (normalizeLocation (some "A, UK, UK") (some "GB"))) (some "GB")
      ≠ normalizeLocation (some "A, UK, UK") (some "GB") := by
  decide

/-- C5 amended: applying the normalizer twice equals applying it once for
every (location, country) whose trimmed location contains neither ", UK" nor
"Greater" (so the partial string-replace rules cannot fire or leave residue)
and whose once-normalized result is non-empty, not the null-marker, and not
case-insensitively "world" (so the sentinel branch cannot newly fire). -/
theorem c5_normalizer_idem_amended (location country : Option String)
    (H1 : ∀ s, location = some s →
        jsIncludes (jsTrim s) ", UK" = false ∧ jsIncludes (jsTrim s) "Greater" = false)
    (H2 : normalizeLocation location country ≠ ""
        ∧ normalizeLocation location country ≠ "null"
        ∧ jsToLower (normalizeLocation location country) ≠ "world") :
    normalizeLocation (some (normalizeLocation location country)) country
      = normalizeLocation location country := by
  cases location with
  | none =>
    rw [show normalizeLocation none country = "North Pole" from rfl]
    exact northPole_stable country
  | some l =>
    by_cases hguard : l = "" ∨ l = "null" ∨ jsToLower l = "world"
    · rw [show normalizeLocation (some l) country = "North Pole" from by
        simp only [normalizeLocation]
        rw [if_pos hguard]]
      exact northPole_stable country
    · obtain ⟨hUK, hGr⟩ := H1 l rfl
      have hnorm : normalizeLocation (some l) country = ruleFour (jsTrim l) country :=
        normalize_main_case l country hguard hUK hGr
      have hfix : jsTrim (ruleFour (jsTrim l) country) = ruleFour (jsTrim l) country := by
        rcases ruleFour_cases (jsTrim l) country with hc | hc
        · rw [hc]
          exact jsTrim_idem l
        · rw [hc]
          exact jsTrim_idem (takeBeforeComma (jsTrim l))
      have hsub : (ruleFour (jsTrim l) country).data <:+: (jsTrim l).data := by
        rcases ruleFour_cases (jsTrim l) country with hc | hc
        · rw [hc]
        · rw [hc]
          exact (trimChars_within _).trans (List.takeWhile_prefix _).isInfix
      have hUKr : jsIncludes (ruleFour (jsTrim l) country) ", UK" = false :=
        jsIncludes_false_mono hsub hUK
      have hGrr : jsIncludes (ruleFour (jsTrim l) country) "Greater" = false :=
        jsIncludes_false_mono hsub hGr
      rw [hnorm] at H2 ⊢
      have hguard2 : ¬(ruleFour (jsTrim l) country = ""
          ∨ ruleFour (jsTrim l) country = "null"
          ∨ jsToLower (ruleFour (jsTrim l) country) = "world") := by
        rintro (h | h | h)
        · exact H2.1 h
        · exact H2.2.1 h
        · exact H2.2.2 h
      have h2 := normalize_main_case (ruleFour (jsTrim l) country) country hguard2
        (by rw [hfix]; exact hUKr) (by rw [hfix]; exact hGrr)
      rw [h2, hfix]
      exact ruleFour_idem (jsTrim l) country

theorem c5_witness :
    (jsIncludes (jsTrim "Berlin Mitte") ", UK" = false
      ∧ jsIncludes (jsTrim "Berlin Mitte") "Greater" = false)
    ∧ normalizeLocation (some "Berlin Mitte") (some "DE") ≠ ""
    ∧ normalizeLocation (some (normalizeLocation (some "Berlin Mitte") (some "DE"))) (some "DE")
        = normalizeLocation (some "Berlin Mitte") (some "DE") :=
  ⟨⟨by decide, by decide⟩, by decide,
   c5_normalizer_idem_amended (some "Berlin Mitte") (some "DE")
     (fun s hs => by
       injection hs with hs'
       subst hs'
       exact ⟨by decide, by decide⟩)
     ⟨by decide, by decide, by decide⟩⟩

/-- A reverse geocoder whose single result has no city field, and a
successful entry whose location bears no relation to that result. -/
def exRevEmptyCity : Int → Int → Option (List RevResult) :=
  fun _ _ => some [⟨"Totally Unrelated Place", none⟩]

def exEntry4 : GeoEntry Int :=
  ⟨some "Berlin", some "DE", 1, ["E F"], true,
    some ⟨52, 13, some "Berlin, Deutschland", some "Berlin", some "Germany", some "de"⟩, none⟩

theorem c10_witness :
    ((⟨"Totally Unrelated Place", none⟩ : RevResult).city = none
      ∨ (⟨"Totally Unrelated Place", none⟩ : RevResult).city = some "")
    ∧ jsMatchCheck ⟨"Totally Unrelated Place", none⟩ "Berlin" = true
    ∧ checkEntry exRevEmptyCity exEntry4 = none :=
  ⟨Or.inl rfl,
   (c10_empty_city_always_match exRevEmptyCity exEntry4 _ "Berlin" _ [] rfl rfl rfl
      (Or.inl rfl)).1,
   (c10_empty_city_always_match exRevEmptyCity exEntry4 _ "Berlin" _ [] rfl rfl rfl
      (Or.inl rfl)).2⟩

end PosthogTeam
